import Mathlib

/-!
Verification development for the Jingler repository
(src/jingle_scheduler.py).

Shallow embedding conventions:
* timestamps (Python `datetime` values) are rationals counting seconds,
  with days of 86400 seconds, so that `now.replace(hour=h, minute=m,
  second=0, microsecond=0)` becomes `86400 * floor(now / 86400) + 3600*h + 60*m`;
* the float period `3600.0 / n` is modelled by the exact rational `3600 / n`;
* `datetime.strptime(s, "%H:%M")` is modelled for ASCII digit strings:
  the compiled pattern is `(2[0-3]|[0-1]\d|\d):([0-5]\d|\d)` anchored at
  both ends, i.e. the hour field is one digit or two digits of value at most
  23 and the minute field is one digit or two digits of value at most 59;
* fallible Python code (statements that can raise an exception that the
  caller does not catch) returns `Option`, with `none` for the raise;
* the GUI, VLC and threading plumbing is out of scope; the playback
  coordinator is embedded as pure transition functions over an `AppState`,
  taking the externally observed player state as an argument.
-/

/-- The `self.mode` field of `SchedulerState`: `None`, `'times'` or
`'per_hour'` in the Python source. -/
inductive Mode where
  | none : Mode
  | times : Mode
  | per_hour : Mode
deriving DecidableEq

/-- The scheduler state owned by `SchedulerState.__init__`. -/
structure SchedulerState where
  mode : Mode
  times : List String
  per_hour : Nat
  next_jingle_time : Option ℚ
  last_jingle_time : Option ℚ
deriving DecidableEq

/-- `SchedulerState.__init__`: mode None, no times, per_hour 0, no
next/last jingle time. -/
def initState : SchedulerState :=
  { mode := Mode.none, times := [], per_hour := 0,
    next_jingle_time := none, last_jingle_time := none }

/-- `SchedulerState.set_per_hour(n)`, with `datetime.now()` passed
explicitly as `now`. -/
def SchedulerState.set_per_hour (st : SchedulerState) (n : Nat) (now : ℚ) :
    SchedulerState :=
  { st with
    mode := if 0 < n then Mode.per_hour else Mode.none
    per_hour := n
    last_jingle_time := some now
    next_jingle_time := if 0 < n then some (now + 3600 / (n : ℚ)) else none }

/-- Numeric value of an ASCII digit character. -/
def digitVal (c : Char) : Nat := c.toNat - 48

/-- One field of the `%H:%M` pattern: one digit, or two digits whose value
is at most `maxVal` (23 for `%H`, 59 for `%M`). -/
def parseField (cs : List Char) (maxVal : Nat) : Option Nat :=
  match cs with
  | [c] => if c.isDigit then some (digitVal c) else none
  | [c1, c2] =>
      if c1.isDigit ∧ c2.isDigit ∧ 10 * digitVal c1 + digitVal c2 ≤ maxVal then
        some (10 * digitVal c1 + digitVal c2)
      else none
  | _ => none

/-- Split a character list at every colon. -/
def splitColon : List Char → List (List Char)
  | [] => [[]]
  | c :: rest =>
      if c = ':' then [] :: splitColon rest
      else
        match splitColon rest with
        | [] => [[c]]
        | g :: gs => (c :: g) :: gs

/-- `datetime.strptime(s, "%H:%M")`, returning the parsed (hour, minute)
or `none` when the `ValueError` is raised. -/
def parseHHMM (s : String) : Option (Nat × Nat) :=
  match splitColon s.toList with
  | [hs, ms] =>
      match parseField hs 23, parseField ms 59 with
      | some h, some m => some (h, m)
      | _, _ => none
  | _ => none

/-- `SchedulerState.add_time(timestr)`: parse failure returns `False` and
changes nothing; on success the literal is appended and the mode becomes
`'times'`. -/
def SchedulerState.add_time (st : SchedulerState) (timestr : String) :
    Bool × SchedulerState :=
  match parseHHMM timestr with
  | Option.none => (false, st)
  | some _ => (true, { st with times := st.times ++ [timestr], mode := Mode.times })

/-- `SchedulerState.remove_time(timestr)`: remove the first occurrence if
present, then reset the mode to None when no times are left and per_hour
is 0. -/
def SchedulerState.remove_time (st : SchedulerState) (timestr : String) :
    SchedulerState :=
  let times1 := if timestr ∈ st.times then st.times.erase timestr else st.times
  { st with
    times := times1
    mode := if times1 = [] ∧ st.per_hour = 0 then Mode.none else st.mode }

/-- `now.replace(hour=h, minute=m, second=0, microsecond=0)` for a
timestamp measured in seconds with 86400-second days. -/
def candidateTime (now : ℚ) (h m : Nat) : ℚ :=
  86400 * ((⌊now / 86400⌋ : ℤ) : ℚ) + 3600 * (h : ℚ) + 60 * (m : ℚ)

/-- The `for tstr in list(self.times)` scan in
`should_play_jingle_after_song`: `none` models the uncaught `ValueError`
of `strptime` on an unparseable entry, `some none` means no entry is due,
`some (some t)` means `t` is the first due entry. -/
def firstDueTime (now : ℚ) : List String → Option (Option String)
  | [] => some Option.none
  | tstr :: rest =>
      match parseHHMM tstr with
      | Option.none => Option.none
      | some (h, m) =>
          if candidateTime now h m ≤ now then some (some tstr)
          else firstDueTime now rest

/-- Number of extra whole periods skipped by the catch-up `while` loop. -/
def advanceSteps (period now next : ℚ) : Nat :=
  (⌊(now - next) / period⌋ + 1).toNat - 1

/-- The `while now >= self.next_jingle_time` loop of the per-hour branch:
repeatedly set `last = next; next = next + period` until `next` is in the
future. -/
def perHourAdvance (period : ℚ) (hp : 0 < period) (now : ℚ) (next : ℚ)
    (last : Option ℚ) : ℚ × Option ℚ :=
  if h : next ≤ now then
    perHourAdvance period hp now (next + period) (some next)
  else (next, last)
termination_by (⌊(now - next) / period⌋ + 1).toNat
decreasing_by
  have hper : period ≠ 0 := ne_of_gt hp
  have hstep : now - (next + period) = (now - next) - period := by ring
  have hx : (now - (next + period)) / period = (now - next) / period - 1 := by
    rw [hstep, sub_div, div_self hper]
  have h0 : (0 : ℤ) ≤ ⌊(now - next) / period⌋ :=
    Int.floor_nonneg.mpr (div_nonneg (sub_nonneg.mpr h) (le_of_lt hp))
  rw [hx, Int.floor_sub_one]
  omega

/-- The per-hour part (step 2) of `should_play_jingle_after_song`. -/
def perHourBranch (st : SchedulerState) (now : ℚ) : Bool × SchedulerState :=
  if h : st.mode = Mode.per_hour ∧ 0 < st.per_hour then
    match st.next_jingle_time with
    | Option.none => (false, st)
    | some next =>
        if next ≤ now then
          let r := perHourAdvance (3600 / (st.per_hour : ℚ))
            (div_pos (by norm_num) (by exact_mod_cast h.2)) now next
            st.last_jingle_time
          (true, { st with next_jingle_time := some r.1, last_jingle_time := r.2 })
        else (false, st)
  else (false, st)

/-- `SchedulerState.should_play_jingle_after_song`, with `datetime.now()`
passed explicitly.  `none` models an uncaught exception; `some (b, st1)`
is the returned boolean together with the mutated state. -/
def SchedulerState.should_play_jingle_after_song (st : SchedulerState)
    (now : ℚ) : Option (Bool × SchedulerState) :=
  if st.mode = Mode.times ∧ st.times ≠ [] then
    match firstDueTime now st.times with
    | Option.none => Option.none
    | some (some tstr) =>
        let times1 := st.times.erase tstr
        some (true,
          { st with
            times := times1
            mode := if times1 = [] ∧ st.per_hour = 0 then Mode.none else st.mode })
    | some Option.none => some (perHourBranch st now)
  else some (perHourBranch st now)

/-- A sequence of `should_play_jingle_after_song` calls at the given
instants, threading the state; `none` models an uncaught exception at some
call. -/
def runCalls : SchedulerState → List ℚ → Option (List Bool × SchedulerState)
  | st, [] => some ([], st)
  | st, now :: rest =>
      match st.should_play_jingle_after_song now with
      | Option.none => Option.none
      | some (b, st1) =>
          match runCalls st1 rest with
          | Option.none => Option.none
          | some (bs, st2) => some (b :: bs, st2)

/-- The mode-consistency invariant that the scheduler operations actually
maintain: per-hour mode implies an active per-hour setting, mode None
implies per-hour disabled, and both dimensions empty forces mode None. -/
def SchedInv (st : SchedulerState) : Prop :=
  (st.mode = Mode.per_hour → 0 < st.per_hour) ∧
  (st.mode = Mode.none → st.per_hour = 0) ∧
  (st.times = [] ∧ st.per_hour = 0 → st.mode = Mode.none)

/-- States reachable from `initState` by the scheduler operations. -/
inductive Reachable : SchedulerState → Prop where
  | init : Reachable initState
  | set_per_hour (st : SchedulerState) (n : Nat) (now : ℚ) :
      Reachable st → Reachable (st.set_per_hour n now)
  | add_time (st : SchedulerState) (s : String) :
      Reachable st → Reachable (st.add_time s).2
  | remove_time (st : SchedulerState) (s : String) :
      Reachable st → Reachable (st.remove_time s)
  | check (st st1 : SchedulerState) (now : ℚ) (b : Bool) :
      Reachable st → st.should_play_jingle_after_song now = some (b, st1) →
      Reachable st1

/-- The `vlc.State` enumeration. -/
inductive VlcState where
  | NothingSpecial : VlcState
  | Opening : VlcState
  | Buffering : VlcState
  | Playing : VlcState
  | Paused : VlcState
  | Stopped : VlcState
  | Ended : VlcState
  | Error : VlcState
deriving DecidableEq

/-- The coordinator state of `JingleSchedulerApp` (playlist, jingle pool,
cursor, scheduler, jingle-playing flag and jingle handle). -/
structure AppState where
  playlist : List String
  jingles : List String
  play_index : Nat
  scheduler : SchedulerState
  playing_jingle : Bool
  jplayer : Bool
deriving DecidableEq

/-- `JingleSchedulerApp._advance_index`: wrap-around cursor advance, no-op
on an empty playlist. -/
def advanceIndex (st : AppState) : AppState :=
  if st.playlist = [] then st
  else { st with play_index := (st.play_index + 1) % st.playlist.length }

/-- `JingleSchedulerApp._play_current_song`: `some none` is the empty
playlist no-op, `some (some path)` loads and plays `path`, `none` is the
`IndexError` raised by `self.playlist[self.play_index]`. -/
def playCurrentSong (st : AppState) : Option (Option String) :=
  if st.playlist = [] then some Option.none
  else if h : st.play_index < st.playlist.length then
    some (some (st.playlist.get ⟨st.play_index, h⟩))
  else Option.none

/-- The jingle shutdown at the top of `play_next` (and of `stop`): only
when a jingle handle exists and a jingle is playing are both released. -/
def stopActiveJingle (st : AppState) : AppState :=
  if st.jplayer = true ∧ st.playing_jingle = true then
    { st with playing_jingle := false, jplayer := false }
  else st

/-- `JingleSchedulerApp.play_next`: stop an active jingle, advance the
cursor, play the new current song (second component as in
`playCurrentSong`). -/
def play_next (st : AppState) : AppState × Option (Option String) :=
  let st1 := stopActiveJingle st
  let st2 := advanceIndex st1
  (st2, playCurrentSong st2)

/-- `JingleSchedulerApp.play_pause`, with the externally observed player
facts (`is_playing`, `get_state`) as arguments.  Only the fresh-start
branch loads a song; it first clamps the index with
`max(0, min(play_index, len(playlist)-1))`. -/
def play_pause (isPlaying : Bool) (pstate : VlcState) (st : AppState) :
    AppState × Option (Option String) :=
  if isPlaying = true then (st, some Option.none)
  else if st.playlist = [] then (st, some Option.none)
  else if pstate = VlcState.Ended ∨ pstate = VlcState.NothingSpecial then
    let st1 := { st with
      play_index := max 0 (min st.play_index (st.playlist.length - 1)) }
    (st1, playCurrentSong st1)
  else (st, some Option.none)

/-- The break condition of the wait loop in `_play_jingle_once`:
`state in (vlc.State.Ended, vlc.State.Stopped, vlc.State.Error)`. -/
def jingleTerminal : VlcState → Bool
  | VlcState.Ended => true
  | VlcState.Stopped => true
  | VlcState.Error => true
  | _ => false

/-- The wait loop of `_play_jingle_once` over the successive polled states
of the jingle handle: `true` when the loop exits at some terminal state of
the trace. -/
def jingleWait : List VlcState → Bool
  | [] => false
  | s :: rest => if jingleTerminal s then true else jingleWait rest

/-- Net state effect of `_play_jingle_once(jingle_path)`: an empty (falsy)
path returns at once, otherwise after the wait loop the jingle flag is
cleared and the jingle handle released. -/
def playJingleOnce (st : AppState) (jpath : String) : AppState :=
  if jpath = "" then st
  else { st with playing_jingle := false, jplayer := false }

/-- `random.choice(self.jingles)` with the random draw supplied as `pick`. -/
def chooseJingle (l : List String) (pick : Nat) (h : l ≠ []) : String :=
  l.get ⟨pick % l.length, Nat.mod_lt _ (List.length_pos.mpr h)⟩

/-- One iteration of the `_monitor_playback` loop body, with the observed
main-player state, `datetime.now()` and the random draw as arguments.
`none` models an exception not caught by the `except vlc.VLCException`
handler; otherwise the result is the new app state, the jingle played (if
any) and the `playCurrentSong` outcome (`some none` when no song load was
attempted or the playlist is empty). -/
def monitorStep (now : ℚ) (pick : Nat) (pstate : VlcState) (st : AppState) :
    Option (AppState × Option String × Option (Option String)) :=
  if pstate = VlcState.Ended then
    match st.scheduler.should_play_jingle_after_song now with
    | Option.none => Option.none
    | some (due, sch) =>
        let st1 := { st with scheduler := sch }
        let step2 : AppState × Option String :=
          if h : due = true ∧ st1.jingles ≠ [] then
            let j := chooseJingle st1.jingles pick h.2
            (playJingleOnce st1 j, some j)
          else (st1, Option.none)
        let st3 := advanceIndex step2.1
        some (st3, step2.2, playCurrentSong st3)
  else some (st, Option.none, some Option.none)

/-- Cast of the step count to the floor it comes from. -/
lemma advanceSteps_cast (period now next : ℚ) (hp : 0 < period)
    (h : next ≤ now) :
    ((advanceSteps period now next : ℕ) : ℚ) =
      ((⌊(now - next) / period⌋ : ℤ) : ℚ) := by
  have h0 : (0 : ℤ) ≤ ⌊(now - next) / period⌋ :=
    Int.floor_nonneg.mpr (div_nonneg (sub_nonneg.mpr h) hp.le)
  have h1 : (0 : ℤ) ≤ ⌊(now - next) / period⌋ + 1 := by omega
  unfold advanceSteps
  have h2 : ((⌊(now - next) / period⌋ + 1).toNat : ℤ) = ⌊(now - next) / period⌋ + 1 :=
    Int.toNat_of_nonneg h1
  have h3 : ((⌊(now - next) / period⌋ + 1).toNat - 1 : ℕ) =
      (⌊(now - next) / period⌋).toNat := by omega
  rw [h3]
  exact_mod_cast Int.toNat_of_nonneg h0

/-- The instant `next + advanceSteps * period` (the final value of
`last_jingle_time`) is still at or before `now`. -/
lemma advance_le (period now next : ℚ) (hp : 0 < period) (h : next ≤ now) :
    next + (advanceSteps period now next : ℚ) * period ≤ now := by
  have hc := advanceSteps_cast period now next hp h
  have hf : ((⌊(now - next) / period⌋ : ℤ) : ℚ) ≤ (now - next) / period :=
    Int.floor_le _
  rw [hc]
  have h2 := (le_div_iff₀ hp).mp hf
  linarith

/-- The instant `next + (advanceSteps + 1) * period` (the final value of
`next_jingle_time`) is strictly after `now`. -/
lemma advance_lt (period now next : ℚ) (hp : 0 < period) (h : next ≤ now) :
    now < next + ((advanceSteps period now next : ℚ) + 1) * period := by
  have hc := advanceSteps_cast period now next hp h
  have hf : (now - next) / period < ((⌊(now - next) / period⌋ : ℤ) : ℚ) + 1 :=
    Int.lt_floor_add_one _
  have h2 := (div_lt_iff₀ hp).mp hf
  rw [hc]
  linarith

/-- Closed form of the catch-up loop: starting from a due `next`, the loop
runs `advanceSteps + 1` times, leaving `next_jingle_time` at
`next + (advanceSteps + 1) * period` and `last_jingle_time` at
`next + advanceSteps * period`. -/
lemma perHourAdvance_eq (period : ℚ) (hp : 0 < period) (now : ℚ) :
    ∀ (k : ℕ) (next : ℚ) (last : Option ℚ), next ≤ now →
      advanceSteps period now next = k →
      perHourAdvance period hp now next last =
        (next + ((k : ℚ) + 1) * period, some (next + (k : ℚ) * period)) := by
  intro k
  induction k with
  | zero =>
      intro next last h hk
      have h0 : (0 : ℤ) ≤ ⌊(now - next) / period⌋ :=
        Int.floor_nonneg.mpr (div_nonneg (sub_nonneg.mpr h) hp.le)
      have hfl : ⌊(now - next) / period⌋ = 0 := by
        unfold advanceSteps at hk; omega
      have hlt : now - next < period := by
        have hio := Int.floor_eq_zero_iff.mp hfl
        have h1 : (now - next) / period < 1 := hio.2
        have h2 := (div_lt_iff₀ hp).mp h1
        linarith
      have hng : ¬ (next + period ≤ now) := by linarith
      rw [perHourAdvance, dif_pos h, perHourAdvance, dif_neg hng]
      simp only [Prod.mk.injEq, Option.some.injEq]
      constructor <;> push_cast <;> ring
  | succ k ih =>
      intro next last h hk
      have h0 : (0 : ℤ) ≤ ⌊(now - next) / period⌋ :=
        Int.floor_nonneg.mpr (div_nonneg (sub_nonneg.mpr h) hp.le)
      have hfl : ⌊(now - next) / period⌋ = (k : ℤ) + 1 := by
        unfold advanceSteps at hk; omega
      have h1 : ((1 : ℤ) : ℚ) ≤ (now - next) / period :=
        Int.le_floor.mp (by omega)
      have h2 : period ≤ now - next := by
        have := (one_le_div hp).mp (by exact_mod_cast h1)
        linarith
      have hnext : next + period ≤ now := by linarith
      have hx : (now - (next + period)) / period = (now - next) / period - 1 := by
        have hstep : now - (next + period) = (now - next) - period := by ring
        rw [hstep, sub_div, div_self (ne_of_gt hp)]
      have hk2 : advanceSteps period now (next + period) = k := by
        unfold advanceSteps
        rw [hx, Int.floor_sub_one, hfl]
        omega
      rw [perHourAdvance, dif_pos h, ih (next + period) (some next) hnext hk2]
      simp only [Prod.mk.injEq, Option.some.injEq]
      constructor <;> push_cast <;> ring

example : parseHHMM "10:00" = some (10, 0) := by decide
example : parseHHMM "1:5" = some (1, 5) := by decide
example : parseHHMM "24:00" = none := by decide
example : parseHHMM "xx" = none := by decide
example : parseHHMM "" = none := by decide
example : parseHHMM "10:000" = none := by decide
example : candidateTime 300 0 0 ≤ 300 := by norm_num [candidateTime]

/-- In per-hour mode with the due instant still in the future, the check
returns `False` and mutates nothing. -/
lemma should_play_noFire (st : SchedulerState) (now v : ℚ)
    (hm : st.mode = Mode.per_hour)
    (hv : st.next_jingle_time = some v) (hlt : now < v) :
    st.should_play_jingle_after_song now = some (false, st) := by
  unfold SchedulerState.should_play_jingle_after_song perHourBranch
  rw [if_neg (by simp [hm])]
  by_cases hn : 0 < st.per_hour
  · rw [dif_pos ⟨hm, hn⟩]
    simp only [hv]
    rw [if_neg (not_le.mpr hlt)]
  · rw [dif_neg (by tauto)]

/-- In per-hour mode with the due instant reached, the check fires: it
returns `True` and re-arms `next_jingle_time` one period past the last
caught-up due instant. -/
lemma should_play_fire (st : SchedulerState) (now v : ℚ)
    (hm : st.mode = Mode.per_hour) (hn : 0 < st.per_hour)
    (hv : st.next_jingle_time = some v) (hle : v ≤ now) :
    st.should_play_jingle_after_song now =
      some (true, { st with
        next_jingle_time := some (v +
          ((advanceSteps (3600 / (st.per_hour : ℚ)) now v : ℚ) + 1) *
            (3600 / (st.per_hour : ℚ))),
        last_jingle_time := some (v +
          (advanceSteps (3600 / (st.per_hour : ℚ)) now v : ℚ) *
            (3600 / (st.per_hour : ℚ))) }) := by
  have hp : (0 : ℚ) < 3600 / (st.per_hour : ℚ) :=
    div_pos (by norm_num) (by exact_mod_cast hn)
  unfold SchedulerState.should_play_jingle_after_song perHourBranch
  rw [if_neg (by simp [hm])]
  rw [dif_pos ⟨hm, hn⟩]
  simp only [hv]
  rw [if_pos hle]
  rw [perHourAdvance_eq (3600 / (st.per_hour : ℚ)) _ now
    (advanceSteps (3600 / (st.per_hour : ℚ)) now v) v st.last_jingle_time hle rfl]

/-- With mode `'times'` but no queued times, the check returns `False`
and mutates nothing (neither branch of the function runs). -/
lemma should_play_stall (st : SchedulerState) (now : ℚ)
    (hm : st.mode = Mode.times) (ht : st.times = []) :
    st.should_play_jingle_after_song now = some (false, st) := by
  unfold SchedulerState.should_play_jingle_after_song perHourBranch
  rw [if_neg (by simp [ht])]
  rw [dif_neg (by simp [hm])]

/-- A state on which every check returns `False` unchanged keeps doing so
over any sequence of calls. -/
lemma runCalls_stall (st : SchedulerState)
    (hall : ∀ now, st.should_play_jingle_after_song now = some (false, st)) :
    ∀ nows : List ℚ,
      runCalls st nows = some (nows.map (fun _ => false), st) := by
  intro nows
  induction nows with
  | nil => rfl
  | cons a rest ih => simp [runCalls, hall a, ih]

/-- The per-hour branch never touches `mode`, `times` or `per_hour`. -/
lemma perHourBranch_frame (st : SchedulerState) (now : ℚ) :
    (perHourBranch st now).2.mode = st.mode ∧
    (perHourBranch st now).2.times = st.times ∧
    (perHourBranch st now).2.per_hour = st.per_hour := by
  unfold perHourBranch
  split
  · split
    · exact ⟨rfl, rfl, rfl⟩
    · split
      · exact ⟨rfl, rfl, rfl⟩
      · exact ⟨rfl, rfl, rfl⟩
  · exact ⟨rfl, rfl, rfl⟩

/-- Any successful check call can only erase one queued time; it never
adds one: a literal absent before the call is absent after it. -/
lemma should_play_no_new_time (st : SchedulerState) (now : ℚ) (b : Bool)
    (st1 : SchedulerState)
    (hsp : st.should_play_jingle_after_song now = some (b, st1))
    (T : String) (hT : T ∉ st.times) : T ∉ st1.times := by
  unfold SchedulerState.should_play_jingle_after_song at hsp
  split at hsp
  · split at hsp
    · exact absurd hsp (by simp)
    · rename_i tstr _
      injection hsp with hsp'
      injection hsp' with hb hst
      have h2 : st1.times = st.times.erase tstr := by rw [← hst]
      intro hmem
      rw [h2] at hmem
      exact hT (List.mem_of_mem_erase hmem)
    · injection hsp with hsp'
      have hfr := (perHourBranch_frame st now).2.1
      rw [hsp'] at hfr
      simp only [] at hfr
      intro hmem
      rw [hfr] at hmem
      exact hT hmem
  · injection hsp with hsp'
    have hfr := (perHourBranch_frame st now).2.1
    rw [hsp'] at hfr
    simp only [] at hfr
    intro hmem
    rw [hfr] at hmem
    exact hT hmem

/-- If every queued time parses and at least one is due, the scan stops at
the first due entry. -/
lemma firstDue_found (now : ℚ) :
    ∀ l : List String, (∀ s ∈ l, (parseHHMM s).isSome = true) →
      (∃ t ∈ l, ∃ h m, parseHHMM t = some (h, m) ∧ candidateTime now h m ≤ now) →
      ∃ F l1 l2, firstDueTime now l = some (some F) ∧
        l = l1 ++ F :: l2 ∧
        (∀ t ∈ l1, ∀ h m, parseHHMM t = some (h, m) →
          ¬ candidateTime now h m ≤ now) ∧
        ∃ h m, parseHHMM F = some (h, m) ∧ candidateTime now h m ≤ now := by
  intro l
  induction l with
  | nil => intro _ hdue; simp at hdue
  | cons a rest ih =>
      intro hwf hdue
      have ha : (parseHHMM a).isSome = true := hwf a (by simp)
      obtain ⟨⟨h, m⟩, hpa⟩ := Option.isSome_iff_exists.mp ha
      by_cases hc : candidateTime now h m ≤ now
      · refine ⟨a, [], rest, ?_, by simp, by simp, h, m, hpa, hc⟩
        simp [firstDueTime, hpa, hc]
      · have hdue' : ∃ t ∈ rest, ∃ h m,
            parseHHMM t = some (h, m) ∧ candidateTime now h m ≤ now := by
          obtain ⟨t, htl, h', m', hp', hc'⟩ := hdue
          rcases List.mem_cons.mp htl with rfl | htr
          · rw [hpa] at hp'
            injection hp' with hp2
            injection hp2 with eh em
            rw [← eh, ← em] at hc'
            exact absurd hc' hc
          · exact ⟨t, htr, h', m', hp', hc'⟩
        obtain ⟨F, l1, l2, e1, e2, e3, e4⟩ :=
          ih (fun s hs => hwf s (by simp [hs])) hdue'
        refine ⟨F, a :: l1, l2, ?_, by simp [e2], ?_, e4⟩
        · simp [firstDueTime, hpa, hc, e1]
        · intro t htl h' m' hp'
          rcases List.mem_cons.mp htl with rfl | htr
          · rw [hpa] at hp'
            injection hp' with hp2
            injection hp2 with eh em
            rw [← eh, ← em]
            exact hc
          · exact e3 t htr h' m' hp'

/-- When mode is `'times'` and some queued entry is due (all entries
parseable), the check fires the first due entry `F`: it returns `True`,
erases exactly that entry, and resets the mode only when the queue became
empty with per-hour disabled. -/
lemma should_play_times_fire (st : SchedulerState) (now : ℚ)
    (hm : st.mode = Mode.times)
    (hwf : ∀ s ∈ st.times, (parseHHMM s).isSome = true)
    (T : String) (hT : T ∈ st.times) (h m : ℕ)
    (hp : parseHHMM T = some (h, m)) (hdue : candidateTime now h m ≤ now) :
    ∃ F l1 l2,
      st.should_play_jingle_after_song now = some (true,
        { st with
          times := st.times.erase F
          mode := if st.times.erase F = [] ∧ st.per_hour = 0 then Mode.none
                  else st.mode }) ∧
      st.times = l1 ++ F :: l2 ∧
      (∀ t ∈ l1, ∀ h' m', parseHHMM t = some (h', m') →
        ¬ candidateTime now h' m' ≤ now) ∧
      (∃ h' m', parseHHMM F = some (h', m') ∧ candidateTime now h' m' ≤ now) := by
  obtain ⟨F, l1, l2, e1, e2, e3, e4⟩ :=
    firstDue_found now st.times hwf ⟨T, hT, h, m, hp, hdue⟩
  refine ⟨F, l1, l2, ?_, e2, e3, e4⟩
  unfold SchedulerState.should_play_jingle_after_song
  rw [if_pos ⟨hm, List.ne_nil_of_mem hT⟩]
  simp only [e1]

/-- Firing the single remaining queued time while per-hour is configured
leaves the mode at `'times'` with an empty queue. -/
lemma should_play_single_fire (st : SchedulerState) (now : ℚ) (tstr : String)
    (h m : ℕ) (hm : st.mode = Mode.times) (ht : st.times = [tstr])
    (hp : parseHHMM tstr = some (h, m)) (hdue : candidateTime now h m ≤ now)
    (hn : 0 < st.per_hour) :
    st.should_play_jingle_after_song now =
      some (true, { st with times := [] }) := by
  unfold SchedulerState.should_play_jingle_after_song
  rw [if_pos ⟨hm, by simp [ht]⟩]
  have e1 : firstDueTime now st.times = some (some tstr) := by
    rw [ht]
    simp [firstDueTime, hp, hdue]
  simp only [e1]
  rw [ht]
  simp only [List.erase_cons_head]
  rw [if_neg (fun hcon => absurd hcon.2 (by omega))]

/-- The initial scheduler state satisfies the mode invariant. -/
lemma schedInv_init : SchedInv initState := by
  refine ⟨fun hcon => ?_, fun _ => rfl, fun _ => rfl⟩
  simp [initState] at hcon

/-- `set_per_hour` establishes the mode invariant from any state. -/
lemma schedInv_set_per_hour (st : SchedulerState) (n : Nat) (now : ℚ) :
    SchedInv (st.set_per_hour n now) := by
  unfold SchedulerState.set_per_hour SchedInv
  by_cases hn : 0 < n
  · simp only [if_pos hn]
    refine ⟨fun _ => hn, fun hcon => ?_, fun hcon => ?_⟩
    · simp at hcon
    · exact absurd hcon.2 (by omega)
  · simp only [if_neg hn]
    exact ⟨fun hcon => by simp at hcon, fun _ => by omega, fun _ => trivial⟩

/-- Case analysis of `add_time`: a parse failure returns `False` and
leaves the state untouched; success returns `True`, appends the literal
and sets mode `'times'`. -/
lemma add_time_eq (st : SchedulerState) (s : String) :
    (parseHHMM s = Option.none → st.add_time s = (false, st)) ∧
    (∀ p : ℕ × ℕ, parseHHMM s = some p →
      st.add_time s =
        (true, { st with times := st.times ++ [s], mode := Mode.times })) := by
  unfold SchedulerState.add_time
  cases hp : parseHHMM s
  · exact ⟨fun _ => rfl, fun p hcon => by simp at hcon⟩
  · exact ⟨fun hcon => by simp at hcon, fun p _ => rfl⟩

/-- `add_time` preserves the mode invariant. -/
lemma schedInv_add_time (st : SchedulerState) (s : String)
    (hI : SchedInv st) : SchedInv (st.add_time s).2 := by
  cases hp : parseHHMM s
  · rw [(add_time_eq st s).1 hp]
    exact hI
  · rename_i p
    rw [(add_time_eq st s).2 p hp]
    refine ⟨fun hcon => ?_, fun hcon => ?_, fun hcon => ?_⟩
    · simp at hcon
    · simp at hcon
    · exact absurd hcon.1 (by simp)

/-- `remove_time` preserves the mode invariant. -/
lemma schedInv_remove_time (st : SchedulerState) (s : String)
    (hI : SchedInv st) : SchedInv (st.remove_time s) := by
  obtain ⟨i1, i2, i3⟩ := hI
  unfold SchedulerState.remove_time SchedInv
  simp only []
  by_cases hc : (if s ∈ st.times then st.times.erase s else st.times) = [] ∧
      st.per_hour = 0
  · rw [if_pos hc]
    exact ⟨fun hcon => by simp at hcon, fun _ => hc.2, fun _ => rfl⟩
  · rw [if_neg hc]
    exact ⟨fun hcon => i1 hcon, fun hcon => i2 hcon, fun hcon => absurd hcon hc⟩

/-- A successful check call preserves the mode invariant. -/
lemma schedInv_check (st : SchedulerState) (now : ℚ) (b : Bool)
    (st1 : SchedulerState) (hI : SchedInv st)
    (hsp : st.should_play_jingle_after_song now = some (b, st1)) :
    SchedInv st1 := by
  obtain ⟨i1, i2, i3⟩ := hI
  unfold SchedulerState.should_play_jingle_after_song at hsp
  split at hsp
  · rename_i hg
    split at hsp
    · exact absurd hsp (by simp)
    · rename_i tstr heq
      injection hsp with hsp'
      injection hsp' with hb hst
      rw [← hst]
      by_cases hc : st.times.erase tstr = [] ∧ st.per_hour = 0
      · refine ⟨fun hcon => ?_, fun _ => ?_, fun _ => ?_⟩
        · rw [show ({ st with
              times := st.times.erase tstr
              mode := if st.times.erase tstr = [] ∧ st.per_hour = 0 then
                Mode.none else st.mode } : SchedulerState).mode =
              (if st.times.erase tstr = [] ∧ st.per_hour = 0 then
                Mode.none else st.mode) from rfl, if_pos hc] at hcon
          simp at hcon
        · exact hc.2
        · rw [show ({ st with
              times := st.times.erase tstr
              mode := if st.times.erase tstr = [] ∧ st.per_hour = 0 then
                Mode.none else st.mode } : SchedulerState).mode =
              (if st.times.erase tstr = [] ∧ st.per_hour = 0 then
                Mode.none else st.mode) from rfl, if_pos hc]
      · refine ⟨fun hcon => ?_, fun hcon => ?_, fun hcon => ?_⟩
        · rw [show ({ st with
              times := st.times.erase tstr
              mode := if st.times.erase tstr = [] ∧ st.per_hour = 0 then
                Mode.none else st.mode } : SchedulerState).mode =
              (if st.times.erase tstr = [] ∧ st.per_hour = 0 then
                Mode.none else st.mode) from rfl, if_neg hc, hg.1] at hcon
          simp at hcon
        · rw [show ({ st with
              times := st.times.erase tstr
              mode := if st.times.erase tstr = [] ∧ st.per_hour = 0 then
                Mode.none else st.mode } : SchedulerState).mode =
              (if st.times.erase tstr = [] ∧ st.per_hour = 0 then
                Mode.none else st.mode) from rfl, if_neg hc, hg.1] at hcon
          simp at hcon
        · exact absurd hcon hc
    · injection hsp with hsp'
      have hfr := perHourBranch_frame st now
      rw [hsp'] at hfr
      obtain ⟨f1, f2, f3⟩ := hfr
      exact ⟨fun hcon => f3 ▸ i1 (f1 ▸ hcon), fun hcon => f3 ▸ i2 (f1 ▸ hcon),
        fun hcon => f1 ▸ i3 ⟨f2 ▸ hcon.1, f3 ▸ hcon.2⟩⟩
  · injection hsp with hsp'
    have hfr := perHourBranch_frame st now
    rw [hsp'] at hfr
    obtain ⟨f1, f2, f3⟩ := hfr
    exact ⟨fun hcon => f3 ▸ i1 (f1 ▸ hcon), fun hcon => f3 ▸ i2 (f1 ▸ hcon),
      fun hcon => f1 ▸ i3 ⟨f2 ▸ hcon.1, f3 ▸ hcon.2⟩⟩

/-- Every reachable scheduler state satisfies the mode invariant. -/
lemma reachable_schedInv (st : SchedulerState) (h : Reachable st) :
    SchedInv st := by
  induction h with
  | init => exact schedInv_init
  | set_per_hour st n now _ _ => exact schedInv_set_per_hour st n now
  | add_time st s _ ih => exact schedInv_add_time st s ih
  | remove_time st s _ ih => exact schedInv_remove_time st s ih
  | check st st1 now b _ hsp ih => exact schedInv_check st now b st1 ih hsp

/-- On a state satisfying the mode invariant, removing an absent literal
changes nothing at all. -/
lemma remove_time_not_mem (st : SchedulerState) (T : String)
    (hI : SchedInv st) (hT : T ∉ st.times) : st.remove_time T = st := by
  unfold SchedulerState.remove_time
  simp only []
  rw [if_neg hT]
  by_cases hc : st.times = [] ∧ st.per_hour = 0
  · rw [if_pos hc, ← hI.2.2 hc]
  · rw [if_neg hc]

/-- Removing a present literal removes exactly its first occurrence and
touches no other field. -/
lemma remove_time_mem (st : SchedulerState) (T : String) (hT : T ∈ st.times) :
    ∃ l1 l2, st.times = l1 ++ T :: l2 ∧ T ∉ l1 ∧
      (st.remove_time T).times = l1 ++ l2 ∧
      (st.remove_time T).per_hour = st.per_hour ∧
      (st.remove_time T).next_jingle_time = st.next_jingle_time ∧
      (st.remove_time T).last_jingle_time = st.last_jingle_time := by
  obtain ⟨l1, l2, hnot, heq, herase⟩ := List.exists_erase_eq hT
  refine ⟨l1, l2, heq, hnot, ?_, rfl, rfl, rfl⟩
  unfold SchedulerState.remove_time
  simp only []
  rw [if_pos hT]
  exact herase

/-- C1: for every n > 0, immediately after `set_per_hour n` at instant t0,
every check strictly before the initial due instant t0 + 3600/n returns
`False` and leaves the state unchanged; the first check at or after it
returns `True`, re-arms `next_jingle_time` strictly past the passed `now`
by a whole number of periods, and sets `last_jingle_time` to the
previously due instant (one period earlier, still at or before `now`). -/
theorem claimC1 (st : SchedulerState) (n : ℕ) (t0 : ℚ) (hn : 0 < n) :
    (∀ now, now < t0 + 3600 / (n : ℚ) →
      (st.set_per_hour n t0).should_play_jingle_after_song now =
        some (false, st.set_per_hour n t0)) ∧
    (∀ now, t0 + 3600 / (n : ℚ) ≤ now →
      ∃ j : ℕ, 1 ≤ j ∧
        (st.set_per_hour n t0).should_play_jingle_after_song now =
          some (true, { st.set_per_hour n t0 with
            next_jingle_time :=
              some (t0 + 3600 / (n : ℚ) + (j : ℚ) * (3600 / (n : ℚ)))
            last_jingle_time :=
              some (t0 + 3600 / (n : ℚ) + ((j : ℚ) - 1) * (3600 / (n : ℚ))) }) ∧
        now < t0 + 3600 / (n : ℚ) + (j : ℚ) * (3600 / (n : ℚ)) ∧
        t0 + 3600 / (n : ℚ) + ((j : ℚ) - 1) * (3600 / (n : ℚ)) ≤ now) := by
  have hp : (0 : ℚ) < 3600 / (n : ℚ) :=
    div_pos (by norm_num) (by exact_mod_cast hn)
  have hmode : (st.set_per_hour n t0).mode = Mode.per_hour := by
    unfold SchedulerState.set_per_hour
    simp only [if_pos hn]
  have hnext : (st.set_per_hour n t0).next_jingle_time =
      some (t0 + 3600 / (n : ℚ)) := by
    unfold SchedulerState.set_per_hour
    simp only [if_pos hn]
  constructor
  · intro now hlt
    exact should_play_noFire _ now _ hmode hnext hlt
  · intro now hge
    have hfire := should_play_fire (st.set_per_hour n t0) now
      (t0 + 3600 / (n : ℚ)) hmode hn hnext hge
    simp only [show (st.set_per_hour n t0).per_hour = n from rfl] at hfire
    refine ⟨advanceSteps (3600 / (n : ℚ)) now (t0 + 3600 / (n : ℚ)) + 1,
      by omega, ?_, ?_, ?_⟩
    · rw [hfire]
      have hc1 : ((advanceSteps (3600 / (n : ℚ)) now (t0 + 3600 / (n : ℚ)) + 1 : ℕ) : ℚ) =
          (advanceSteps (3600 / (n : ℚ)) now (t0 + 3600 / (n : ℚ)) : ℚ) + 1 := by
        push_cast
        ring
      rw [hc1]
      have hc2 : (advanceSteps (3600 / (n : ℚ)) now (t0 + 3600 / (n : ℚ)) : ℚ) + 1 - 1 =
          (advanceSteps (3600 / (n : ℚ)) now (t0 + 3600 / (n : ℚ)) : ℚ) := by
        ring
      rw [hc2]
      rfl
    · have := advance_lt (3600 / (n : ℚ)) now (t0 + 3600 / (n : ℚ)) hp hge
      push_cast
      linarith
    · have := advance_le (3600 / (n : ℚ)) now (t0 + 3600 / (n : ℚ)) hp hge
      push_cast
      linarith

/-- Witness for C1 at st = initState, n = 2, t0 = 0, with check instants
100 (before the due instant 1800) and 1800 (at the due instant). -/
theorem claimC1_witness :
    ((0:ℕ) < 2) ∧
    ((100:ℚ) < 0 + 3600 / ((2:ℕ) : ℚ)) ∧
    ((initState.set_per_hour 2 0).should_play_jingle_after_song 100 =
      some (false, initState.set_per_hour 2 0)) ∧
    ((0:ℚ) + 3600 / ((2:ℕ) : ℚ) ≤ 1800) ∧
    (∃ j : ℕ, 1 ≤ j ∧
      (initState.set_per_hour 2 0).should_play_jingle_after_song 1800 =
        some (true, { initState.set_per_hour 2 0 with
          next_jingle_time :=
            some (0 + 3600 / ((2:ℕ) : ℚ) + (j : ℚ) * (3600 / ((2:ℕ) : ℚ)))
          last_jingle_time :=
            some (0 + 3600 / ((2:ℕ) : ℚ) + ((j : ℚ) - 1) * (3600 / ((2:ℕ) : ℚ))) }) ∧
      (1800:ℚ) < 0 + 3600 / ((2:ℕ) : ℚ) + (j : ℚ) * (3600 / ((2:ℕ) : ℚ)) ∧
      0 + 3600 / ((2:ℕ) : ℚ) + ((j : ℚ) - 1) * (3600 / ((2:ℕ) : ℚ)) ≤ 1800) :=
  ⟨by norm_num,
   by norm_num,
   (claimC1 initState 2 0 (by norm_num)).1 100 (by norm_num),
   by norm_num,
   (claimC1 initState 2 0 (by norm_num)).2 1800 (by norm_num)⟩

/-- C2: in fixed-times mode with all queued entries parseable, when a
queued entry is due at `now`, the check returns `True` and removes exactly
one entry — the first due one in configured order — returning immediately;
and no check call ever re-introduces a literal, so a removed (absent)
entry can never fire again. -/
theorem claimC2 :
    (∀ (st : SchedulerState) (now : ℚ) (T : String) (h m : ℕ),
      st.mode = Mode.times →
      (∀ s ∈ st.times, (parseHHMM s).isSome = true) →
      T ∈ st.times → parseHHMM T = some (h, m) →
      candidateTime now h m ≤ now →
      ∃ F st1, st.should_play_jingle_after_song now = some (true, st1) ∧
        F ∈ st.times ∧
        st1.times = st.times.erase F ∧
        st1.times.length + 1 = st.times.length ∧
        ∃ l1 l2, st.times = l1 ++ F :: l2 ∧
          (∀ t ∈ l1, ∀ h' m', parseHHMM t = some (h', m') →
            ¬ candidateTime now h' m' ≤ now)) ∧
    (∀ (st st1 : SchedulerState) (now : ℚ) (b : Bool) (T : String),
      st.should_play_jingle_after_song now = some (b, st1) →
      T ∉ st.times → T ∉ st1.times) := by
  constructor
  · intro st now T h m hm hwf hT hp hdue
    obtain ⟨F, l1, l2, e1, e2, e3, e4⟩ :=
      should_play_times_fire st now hm hwf T hT h m hp hdue
    have hFmem : F ∈ st.times := by
      rw [e2]
      simp
    refine ⟨F, _, e1, hFmem, rfl, ?_, l1, l2, e2, e3⟩
    have hlen := List.length_erase_of_mem hFmem
    have hpos : 0 < st.times.length := List.length_pos.mpr (List.ne_nil_of_mem hT)
    simp only []
    omega
  · intro st st1 now b T hsp hT
    exact should_play_no_new_time st now b st1 hsp T hT

/-- Witness for C2: the state with queue `["00:00"]` in times mode at
now = 300 (00:05:00) fires and empties the queue; and a check on the
initial state cannot introduce the absent literal `"07:00"`. -/
theorem claimC2_witness :
    (∃ F st1,
      (SchedulerState.mk Mode.times ["00:00"] 0 Option.none
        Option.none).should_play_jingle_after_song 300 = some (true, st1) ∧
      F ∈ (SchedulerState.mk Mode.times ["00:00"] 0 Option.none
        Option.none).times ∧
      st1.times = (SchedulerState.mk Mode.times ["00:00"] 0 Option.none
        Option.none).times.erase F ∧
      st1.times.length + 1 = (SchedulerState.mk Mode.times ["00:00"] 0
        Option.none Option.none).times.length ∧
      ∃ l1 l2, (SchedulerState.mk Mode.times ["00:00"] 0 Option.none
        Option.none).times = l1 ++ F :: l2 ∧
        (∀ t ∈ l1, ∀ h' m', parseHHMM t = some (h', m') →
          ¬ candidateTime 300 h' m' ≤ 300)) ∧
    ("07:00" : String) ∉ initState.times :=
  ⟨claimC2.1 (SchedulerState.mk Mode.times ["00:00"] 0 Option.none Option.none)
      300 "00:00" 0 0 rfl (by decide) (by decide) (by decide)
      (by norm_num [candidateTime]),
   claimC2.2 initState initState 5 false "07:00" rfl (by decide)⟩

/-- C10: if the last remaining fixed time fires while per-hour is
configured (per_hour > 0, next due instant set), the mode stays
fixed-times with an empty queue, and from then on every check returns
`False` forever — the per-hour schedule never fires — over any sequence
of further calls. -/
theorem claimC10 (st : SchedulerState) (now : ℚ) (tstr : String) (h m : ℕ)
    (v : ℚ) (hm : st.mode = Mode.times) (ht : st.times = [tstr])
    (hp : parseHHMM tstr = some (h, m)) (hdue : candidateTime now h m ≤ now)
    (hn : 0 < st.per_hour) (hv : st.next_jingle_time = some v) :
    st.should_play_jingle_after_song now =
      some (true, { st with times := [] }) ∧
    ({ st with times := ([] : List String) } : SchedulerState).mode =
      Mode.times ∧
    ({ st with times := ([] : List String) } : SchedulerState).per_hour =
      st.per_hour ∧
    ({ st with times := ([] : List String) } : SchedulerState).next_jingle_time =
      some v ∧
    (∀ nows : List ℚ,
      runCalls { st with times := ([] : List String) } nows =
        some (nows.map (fun _ => false), { st with times := ([] : List String) })) := by
  refine ⟨should_play_single_fire st now tstr h m hm ht hp hdue hn, hm, rfl, hv, ?_⟩
  exact runCalls_stall _ (fun now' => should_play_stall _ now' hm rfl)

/-- Witness for C10: times mode with queue `["00:00"]`, per_hour = 4 and
next due instant 900; the check at now = 300 fires the fixed time, and the
two later calls at 1000 and 2000 (both past the armed per-hour due
instant) still return `False`. -/
theorem claimC10_witness :
    (SchedulerState.mk Mode.times ["00:00"] 4 (some 900)
      (some 0)).should_play_jingle_after_song 300 =
      some (true, SchedulerState.mk Mode.times [] 4 (some 900) (some 0)) ∧
    runCalls (SchedulerState.mk Mode.times [] 4 (some 900) (some 0))
      [1000, 2000] =
      some ([false, false],
        SchedulerState.mk Mode.times [] 4 (some 900) (some 0)) := by
  have hc := claimC10 (SchedulerState.mk Mode.times ["00:00"] 4 (some 900)
    (some 0)) 300 "00:00" 0 0 900 rfl rfl (by decide)
    (by norm_num [candidateTime]) (by decide) rfl
  exact ⟨hc.1, hc.2.2.2.2 [1000, 2000]⟩

/-- C3 counterexample: with 36 per hour (period 100 s) configured at
t0 = -50, the due instant is 50; a late check at now = 149 fires and
re-arms to 150, and the next check at now = 155 fires again — two `True`
results only 6 s apart, both inside one 100-second window, with call
spacing below one period.  The claim "at most one true per 3600/n-second
window" is therefore false of the code. -/
theorem claimC3_cex :
    (initState.set_per_hour 36 (-50)).should_play_jingle_after_song 149 =
      some (true,
        SchedulerState.mk Mode.per_hour [] 36 (some 150) (some 50)) ∧
    (SchedulerState.mk Mode.per_hour [] 36 (some 150)
      (some 50)).should_play_jingle_after_song 155 =
      some (true,
        SchedulerState.mk Mode.per_hour [] 36 (some 250) (some 150)) ∧
    ((155 : ℚ) - 149 < 3600 / ((36 : ℕ) : ℚ)) := by
  have h0 : initState.set_per_hour 36 (-50) =
      SchedulerState.mk Mode.per_hour [] 36 (some 50) (some (-50)) := by
    unfold initState SchedulerState.set_per_hour
    norm_num
  refine ⟨?_, ?_, by norm_num⟩
  · rw [h0]
    have hfire := should_play_fire
      (SchedulerState.mk Mode.per_hour [] 36 (some 50) (some (-50)))
      149 50 rfl (by norm_num) rfl (by norm_num)
    have hk : advanceSteps (3600 / ((36 : ℕ) : ℚ)) 149 50 = 0 := by
      unfold advanceSteps
      norm_num
    rw [hfire]
    simp only [] at hk ⊢
    rw [hk]
    norm_num
  · have hfire := should_play_fire
      (SchedulerState.mk Mode.per_hour [] 36 (some 150) (some 50))
      155 150 rfl (by norm_num) rfl (by norm_num)
    have hk : advanceSteps (3600 / ((36 : ℕ) : ℚ)) 155 150 = 0 := by
      unfold advanceSteps
      norm_num
    rw [hfire]
    simp only [] at hk ⊢
    rw [hk]
    norm_num

/-- C3 (amended): in per-hour mode, after a `True` result the re-armed
`next_jingle_time` strictly exceeds the `now` passed in, and every call
with `now` still strictly before the armed due instant returns `False`
with the state unchanged; each fire advances the due instant by at least
one whole period (so fires consume distinct schedule periods), but two
`True` returns can lie closer together than 3600/n seconds when a fire
happens late within its period. -/
theorem claimC3 (st : SchedulerState) (now v : ℚ)
    (hm : st.mode = Mode.per_hour) (hv : st.next_jingle_time = some v) :
    (now < v →
      st.should_play_jingle_after_song now = some (false, st)) ∧
    (0 < st.per_hour → v ≤ now →
      ∃ j : ℕ, 1 ≤ j ∧
        st.should_play_jingle_after_song now = some (true, { st with
          next_jingle_time :=
            some (v + (j : ℚ) * (3600 / (st.per_hour : ℚ)))
          last_jingle_time :=
            some (v + ((j : ℚ) - 1) * (3600 / (st.per_hour : ℚ))) }) ∧
        now < v + (j : ℚ) * (3600 / (st.per_hour : ℚ)) ∧
        v + ((j : ℚ) - 1) * (3600 / (st.per_hour : ℚ)) ≤ now) := by
  constructor
  · intro hlt
    exact should_play_noFire st now v hm hv hlt
  · intro hn hge
    have hp : (0 : ℚ) < 3600 / (st.per_hour : ℚ) :=
      div_pos (by norm_num) (by exact_mod_cast hn)
    have hfire := should_play_fire st now v hm hn hv hge
    refine ⟨advanceSteps (3600 / (st.per_hour : ℚ)) now v + 1,
      by omega, ?_, ?_, ?_⟩
    · rw [hfire]
      have hc1 : ((advanceSteps (3600 / (st.per_hour : ℚ)) now v + 1 : ℕ) : ℚ) =
          (advanceSteps (3600 / (st.per_hour : ℚ)) now v : ℚ) + 1 := by
        push_cast
        ring
      rw [hc1]
      have hc2 : (advanceSteps (3600 / (st.per_hour : ℚ)) now v : ℚ) + 1 - 1 =
          (advanceSteps (3600 / (st.per_hour : ℚ)) now v : ℚ) := by
        ring
      rw [hc2]
    · have := advance_lt (3600 / (st.per_hour : ℚ)) now v hp hge
      push_cast
      linarith
    · have := advance_le (3600 / (st.per_hour : ℚ)) now v hp hge
      push_cast
      linarith

/-- Witness for C3 (amended) at the concrete per-hour state with period
100 and due instant 150: the call at 100 returns `False` unchanged, and
the call at 155 fires with the re-armed instant past 155. -/
theorem claimC3_witness :
    ((SchedulerState.mk Mode.per_hour [] 36 (some 150)
      (some 50)).should_play_jingle_after_song 100 =
      some (false,
        SchedulerState.mk Mode.per_hour [] 36 (some 150) (some 50))) ∧
    (∃ j : ℕ, 1 ≤ j ∧
      (SchedulerState.mk Mode.per_hour [] 36 (some 150)
        (some 50)).should_play_jingle_after_song 155 =
        some (true,
          { SchedulerState.mk Mode.per_hour [] 36 (some 150) (some 50) with
            next_jingle_time :=
              some (150 + (j : ℚ) * (3600 / ((36 : ℕ) : ℚ)))
            last_jingle_time :=
              some (150 + ((j : ℚ) - 1) * (3600 / ((36 : ℕ) : ℚ))) }) ∧
      (155 : ℚ) < 150 + (j : ℚ) * (3600 / ((36 : ℕ) : ℚ)) ∧
      150 + ((j : ℚ) - 1) * (3600 / ((36 : ℕ) : ℚ)) ≤ 155) :=
  ⟨(claimC3 (SchedulerState.mk Mode.per_hour [] 36 (some 150) (some 50))
      100 150 rfl rfl).1 (by norm_num),
   (claimC3 (SchedulerState.mk Mode.per_hour [] 36 (some 150) (some 50))
      155 150 rfl rfl).2 (by norm_num) (by norm_num)⟩

/-- C4 counterexample: the biconditional mode invariant is false of the
code.  After `set_per_hour 1` then `add_time "10:00"`, per_hour is
positive but the mode is `'times'`, not `'per_hour'`; and after
`add_time "10:00"` then `set_per_hour 0`, the mode is None although the
queued times are non-empty. -/
theorem claimC4_cex :
    (0 < ((initState.set_per_hour 1 0).add_time "10:00").2.per_hour ∧
      ((initState.set_per_hour 1 0).add_time "10:00").2.mode ≠
        Mode.per_hour) ∧
    (((initState.add_time "10:00").2.set_per_hour 0 0).mode = Mode.none ∧
      ((initState.add_time "10:00").2.set_per_hour 0 0).times ≠ []) := by
  refine ⟨⟨?_, ?_⟩, ?_, ?_⟩ <;> decide

/-- C4 (amended): every scheduler operation maintains the weakened mode
invariant `SchedInv`: mode `'per_hour'` implies per_hour > 0, mode None
implies per_hour = 0, and an empty queue together with per_hour = 0 forces
mode None.  (The original biconditionals fail, see the counterexample:
`add_time` sets mode `'times'` without clearing per_hour, and
`set_per_hour 0` sets mode None without clearing the queue.) -/
theorem claimC4 :
    SchedInv initState ∧
    (∀ (st : SchedulerState) (n : ℕ) (now : ℚ),
      SchedInv (st.set_per_hour n now)) ∧
    (∀ (st : SchedulerState) (s : String), SchedInv st →
      SchedInv (st.add_time s).2) ∧
    (∀ (st : SchedulerState) (s : String), SchedInv st →
      SchedInv (st.remove_time s)) ∧
    (∀ (st st1 : SchedulerState) (now : ℚ) (b : Bool), SchedInv st →
      st.should_play_jingle_after_song now = some (b, st1) →
      SchedInv st1) :=
  ⟨schedInv_init, schedInv_set_per_hour,
   fun st s => schedInv_add_time st s,
   fun st s => schedInv_remove_time st s,
   fun st st1 now b hI hsp => schedInv_check st now b st1 hI hsp⟩

/-- Witness for C4 (amended): the invariant holds after concrete
applications of each operation starting from the initial state. -/
theorem claimC4_witness :
    SchedInv ((initState.add_time "10:00").2) ∧
    SchedInv (initState.remove_time "10:00") ∧
    SchedInv (initState.set_per_hour 5 0) ∧
    SchedInv initState :=
  ⟨claimC4.2.2.1 initState "10:00" schedInv_init,
   claimC4.2.2.2.1 initState "10:00" schedInv_init,
   claimC4.2.1 initState 5 0,
   claimC4.2.2.2.2 initState initState 5 false schedInv_init rfl⟩

/-- C6: `add_time` on an input the `%H:%M` parser rejects returns `False`
and leaves every field of the scheduler state unchanged; on an input it
accepts it returns `True`, appends the literal to the queue and sets mode
`'times'`. -/
theorem claimC6 (st : SchedulerState) (s : String) :
    (parseHHMM s = Option.none → st.add_time s = (false, st)) ∧
    (∀ p : ℕ × ℕ, parseHHMM s = some p →
      st.add_time s =
        (true, { st with times := st.times ++ [s], mode := Mode.times })) :=
  add_time_eq st s

/-- Witness for C6: the malformed input `"xx"` is rejected leaving the
initial state unchanged; the well-formed input `"09:30"` is appended. -/
theorem claimC6_witness :
    parseHHMM "xx" = Option.none ∧
    initState.add_time "xx" = (false, initState) ∧
    parseHHMM "09:30" = some (9, 30) ∧
    initState.add_time "09:30" =
      (true, { initState with
        times := initState.times ++ ["09:30"], mode := Mode.times }) :=
  ⟨by decide, (claimC6 initState "xx").1 (by decide), by decide,
   (claimC6 initState "09:30").2 (9, 30) (by decide)⟩

/-- C9: on every reachable scheduler state, `remove_time` of an absent
literal is a complete no-op (in reachable states with an empty queue and
per_hour = 0 the mode is already None, so the trailing mode reset changes
nothing); and for a present literal exactly the first occurrence is
removed, with per_hour and both per-hour timestamps untouched. -/
theorem claimC9 :
    (∀ st : SchedulerState, Reachable st → ∀ T : String, T ∉ st.times →
      st.remove_time T = st) ∧
    (∀ (st : SchedulerState) (T : String), T ∈ st.times →
      ∃ l1 l2, st.times = l1 ++ T :: l2 ∧ T ∉ l1 ∧
        (st.remove_time T).times = l1 ++ l2 ∧
        (st.remove_time T).per_hour = st.per_hour ∧
        (st.remove_time T).next_jingle_time = st.next_jingle_time ∧
        (st.remove_time T).last_jingle_time = st.last_jingle_time) :=
  ⟨fun st hr T hT => remove_time_not_mem st T (reachable_schedInv st hr) hT,
   fun st T hT => remove_time_mem st T hT⟩

/-- Witness for C9: removing the absent literal `"10:00"` from the
(reachable) initial state is a no-op, and removing the present literal
`"10:00"` from a one-entry queue removes its first occurrence. -/
theorem claimC9_witness :
    initState.remove_time "10:00" = initState ∧
    (∃ l1 l2,
      (SchedulerState.mk Mode.times ["10:00"] 0 Option.none
        Option.none).times = l1 ++ "10:00" :: l2 ∧ "10:00" ∉ l1 ∧
      ((SchedulerState.mk Mode.times ["10:00"] 0 Option.none
        Option.none).remove_time "10:00").times = l1 ++ l2 ∧
      ((SchedulerState.mk Mode.times ["10:00"] 0 Option.none
        Option.none).remove_time "10:00").per_hour =
        (SchedulerState.mk Mode.times ["10:00"] 0 Option.none
          Option.none).per_hour ∧
      ((SchedulerState.mk Mode.times ["10:00"] 0 Option.none
        Option.none).remove_time "10:00").next_jingle_time =
        (SchedulerState.mk Mode.times ["10:00"] 0 Option.none
          Option.none).next_jingle_time ∧
      ((SchedulerState.mk Mode.times ["10:00"] 0 Option.none
        Option.none).remove_time "10:00").last_jingle_time =
        (SchedulerState.mk Mode.times ["10:00"] 0 Option.none
          Option.none).last_jingle_time) :=
  ⟨claimC9.1 initState Reachable.init "10:00" (by decide),
   claimC9.2 (SchedulerState.mk Mode.times ["10:00"] 0 Option.none
     Option.none) "10:00" (by decide)⟩

/-- The jingle shutdown in `play_next` touches only the two jingle
flags. -/
lemma stopActiveJingle_frame (st : AppState) :
    (stopActiveJingle st).playlist = st.playlist ∧
    (stopActiveJingle st).jingles = st.jingles ∧
    (stopActiveJingle st).play_index = st.play_index ∧
    (stopActiveJingle st).scheduler = st.scheduler := by
  unfold stopActiveJingle
  split <;> exact ⟨rfl, rfl, rfl, rfl⟩

/-- The cursor advance touches only `play_index`. -/
lemma advanceIndex_frame (st : AppState) :
    (advanceIndex st).playlist = st.playlist ∧
    (advanceIndex st).jingles = st.jingles ∧
    (advanceIndex st).scheduler = st.scheduler ∧
    (advanceIndex st).jplayer = st.jplayer ∧
    (advanceIndex st).playing_jingle = st.playing_jingle := by
  unfold advanceIndex
  split <;> exact ⟨rfl, rfl, rfl, rfl, rfl⟩

/-- The advanced cursor value: unchanged on an empty playlist, otherwise
incremented modulo the playlist length. -/
lemma advanceIndex_idx (st : AppState) :
    (st.playlist = [] → (advanceIndex st).play_index = st.play_index) ∧
    (st.playlist ≠ [] →
      (advanceIndex st).play_index =
        (st.play_index + 1) % st.playlist.length) := by
  unfold advanceIndex
  constructor
  · intro hnil
    rw [if_pos hnil]
  · intro hne
    rw [if_neg hne]

/-- After the advance the cursor is in range (or the playlist is empty),
so loading the current song cannot raise `IndexError`. -/
lemma advanceIndex_in_range (st : AppState) (hne : st.playlist ≠ []) :
    (advanceIndex st).play_index < (advanceIndex st).playlist.length := by
  rw [(advanceIndex_frame st).1, (advanceIndex_idx st).2 hne]
  exact Nat.mod_lt _ (List.length_pos.mpr hne)

/-- Loading the current song with an in-range (or empty-playlist) cursor
is the safe lookup `playlist.get?`. -/
lemma playCurrentSong_eq (st : AppState)
    (h : st.playlist = [] ∨ st.play_index < st.playlist.length) :
    playCurrentSong st = some (st.playlist.get? st.play_index) := by
  unfold playCurrentSong
  rcases h with hnil | hlt
  · rw [if_pos hnil, hnil, List.get?_nil]
  · have hne : st.playlist ≠ [] := by
      intro hnil
      rw [hnil] at hlt
      simp at hlt
    rw [if_neg hne, dif_pos hlt, List.get?_eq_get hlt]

/-- Loading the current song never raises when the cursor is in range or
the playlist is empty. -/
lemma playCurrentSong_ne_none (st : AppState)
    (h : st.playlist = [] ∨ st.play_index < st.playlist.length) :
    playCurrentSong st ≠ Option.none := by
  rw [playCurrentSong_eq st h]
  simp

/-- `_play_jingle_once` touches only the two jingle flags. -/
lemma playJingleOnce_frame (st : AppState) (j : String) :
    (playJingleOnce st j).playlist = st.playlist ∧
    (playJingleOnce st j).jingles = st.jingles ∧
    (playJingleOnce st j).play_index = st.play_index ∧
    (playJingleOnce st j).scheduler = st.scheduler := by
  unfold playJingleOnce
  split <;> exact ⟨rfl, rfl, rfl, rfl⟩

/-- Loading the current song right after a cursor advance can never raise
`IndexError`, whatever state the advance started from. -/
lemma playCurrentSong_advance_ne_none (x : AppState) :
    playCurrentSong (advanceIndex x) ≠ Option.none := by
  by_cases hnil : x.playlist = []
  · apply playCurrentSong_ne_none
    left
    rw [(advanceIndex_frame x).1]
    exact hnil
  · apply playCurrentSong_ne_none
    right
    exact advanceIndex_in_range x hnil

/-- C5 counterexample: an `Error` state of the main player is not treated
like `Ended`.  On a two-song playlist at cursor 0, the monitor iteration
that observes `Ended` advances to cursor 1 and plays the second song,
while the iteration that observes `Error` leaves the state untouched and
plays nothing — it does not advance past the failing item. -/
theorem claimC5_cex :
    monitorStep 0 0 VlcState.Error
        (AppState.mk ["a", "b"] [] 0 initState false false) =
      some (AppState.mk ["a", "b"] [] 0 initState false false, Option.none,
        some Option.none) ∧
    monitorStep 0 0 VlcState.Ended
        (AppState.mk ["a", "b"] [] 0 initState false false) =
      some (AppState.mk ["a", "b"] [] 1 initState false false, Option.none,
        some (some "b")) := by
  refine ⟨?_, ?_⟩ <;> decide

/-- C5 (amended): the jingle handle does treat `Error` like `Ended` — the
wait loop of `_play_jingle_once` exits on `Error` exactly as on `Ended`
(and `Stopped`), after which the flags are cleared, the handle released
and the main sequence resumed; but the main handle does not — the monitor
loop reacts only to `Ended`, so on `Error` it neither advances nor plays
anything (it keeps polling without halting, and the sequence stalls). -/
theorem claimC5 :
    (∀ pre post : List VlcState,
      jingleWait (pre ++ VlcState.Error :: post) =
        jingleWait (pre ++ VlcState.Ended :: post) ∧
      jingleWait (pre ++ VlcState.Error :: post) =
        jingleWait (pre ++ VlcState.Stopped :: post)) ∧
    (∀ (st : AppState) (j : String), j ≠ "" →
      (playJingleOnce st j).playing_jingle = false ∧
      (playJingleOnce st j).jplayer = false) ∧
    (∀ (now : ℚ) (pick : ℕ) (st : AppState),
      monitorStep now pick VlcState.Error st =
        some (st, Option.none, some Option.none)) := by
  refine ⟨?_, ?_, ?_⟩
  · intro pre post
    induction pre with
    | nil => exact ⟨rfl, rfl⟩
    | cons a pre ih =>
        constructor
        · show jingleWait (a :: (pre ++ VlcState.Error :: post)) =
            jingleWait (a :: (pre ++ VlcState.Ended :: post))
          unfold jingleWait
          rw [ih.1]
        · show jingleWait (a :: (pre ++ VlcState.Error :: post)) =
            jingleWait (a :: (pre ++ VlcState.Stopped :: post))
          unfold jingleWait
          rw [ih.2]
  · intro st j hj
    unfold playJingleOnce
    rw [if_neg hj]
    exact ⟨rfl, rfl⟩
  · intro now pick st
    unfold monitorStep
    rw [if_neg (by simp)]

/-- Witness for C5 (amended): a non-empty jingle path clears both flags. -/
theorem claimC5_witness :
    ("jingle.mp3" : String) ≠ "" ∧
    (playJingleOnce (AppState.mk [] [] 0 initState true true)
      "jingle.mp3").playing_jingle = false ∧
    (playJingleOnce (AppState.mk [] [] 0 initState true true)
      "jingle.mp3").jplayer = false := by
  refine ⟨by decide, ?_, ?_⟩
  · exact (claimC5.2.1 (AppState.mk [] [] 0 initState true true)
      "jingle.mp3" (by decide)).1
  · exact (claimC5.2.1 (AppState.mk [] [] 0 initState true true)
      "jingle.mp3" (by decide)).2

/-- C7: an explicit `play_next` never consults the scheduler (the
scheduler state is untouched); if a jingle handle is active it is stopped
and released; the cursor advances by exactly one modulo the playlist
length (no-op on an empty playlist); and the new current item — at the
advanced cursor — is what gets played. -/
theorem claimC7 (st : AppState) :
    (play_next st).1.scheduler = st.scheduler ∧
    (play_next st).1.playlist = st.playlist ∧
    (play_next st).1.jingles = st.jingles ∧
    (st.jplayer = true ∧ st.playing_jingle = true →
      (play_next st).1.jplayer = false ∧
      (play_next st).1.playing_jingle = false) ∧
    (st.playlist = [] →
      (play_next st).1.play_index = st.play_index ∧
      (play_next st).2 = some Option.none) ∧
    (st.playlist ≠ [] →
      (play_next st).1.play_index =
        (st.play_index + 1) % st.playlist.length ∧
      (play_next st).2 =
        some (st.playlist.get? ((st.play_index + 1) % st.playlist.length))) := by
  have hf := stopActiveJingle_frame st
  have ha := advanceIndex_frame (stopActiveJingle st)
  have hai := advanceIndex_idx (stopActiveJingle st)
  have hpl2 : (advanceIndex (stopActiveJingle st)).playlist = st.playlist := by
    rw [ha.1, hf.1]
  refine ⟨?_, ?_, ?_, ?_, ?_, ?_⟩
  · show (advanceIndex (stopActiveJingle st)).scheduler = st.scheduler
    rw [ha.2.2.1, hf.2.2.2]
  · exact hpl2
  · show (advanceIndex (stopActiveJingle st)).jingles = st.jingles
    rw [ha.2.1, hf.2.1]
  · intro hj
    have hs : (stopActiveJingle st).jplayer = false ∧
        (stopActiveJingle st).playing_jingle = false := by
      unfold stopActiveJingle
      rw [if_pos hj]
      exact ⟨rfl, rfl⟩
    constructor
    · show (advanceIndex (stopActiveJingle st)).jplayer = false
      rw [ha.2.2.2.1, hs.1]
    · show (advanceIndex (stopActiveJingle st)).playing_jingle = false
      rw [ha.2.2.2.2, hs.2]
  · intro hnil
    have hnil1 : (stopActiveJingle st).playlist = [] := by
      rw [hf.1]
      exact hnil
    constructor
    · show (advanceIndex (stopActiveJingle st)).play_index = st.play_index
      rw [hai.1 hnil1, hf.2.2.1]
    · show playCurrentSong (advanceIndex (stopActiveJingle st)) =
        some Option.none
      rw [playCurrentSong_eq _ (Or.inl (by rw [hpl2]; exact hnil)), hpl2,
        hnil, List.get?_nil]
  · intro hne
    have hne1 : (stopActiveJingle st).playlist ≠ [] := by
      rw [hf.1]
      exact hne
    have hidx : (advanceIndex (stopActiveJingle st)).play_index =
        (st.play_index + 1) % st.playlist.length := by
      rw [hai.2 hne1, hf.2.2.1, hf.1]
    refine ⟨hidx, ?_⟩
    show playCurrentSong (advanceIndex (stopActiveJingle st)) = _
    rw [playCurrentSong_eq _ (Or.inr (advanceIndex_in_range _ hne1)), hpl2,
      hidx]

/-- Witness for C7: the spec's wrap-around example — a 3-item playlist at
cursor 2 with an active jingle; `play_next` stops the jingle, wraps the
cursor to 0 and plays the first item, with the scheduler untouched. -/
theorem claimC7_witness :
    (play_next (AppState.mk ["a", "b", "c"] [] 2 initState true
      true)).1.scheduler = initState ∧
    (play_next (AppState.mk ["a", "b", "c"] [] 2 initState true
      true)).1.jplayer = false ∧
    (play_next (AppState.mk ["a", "b", "c"] [] 2 initState true
      true)).1.playing_jingle = false ∧
    (play_next (AppState.mk ["a", "b", "c"] [] 2 initState true
      true)).1.play_index = (2 + 1) % (["a", "b", "c"] : List String).length ∧
    (play_next (AppState.mk ["a", "b", "c"] [] 2 initState true true)).2 =
      some ((["a", "b", "c"] : List String).get?
        ((2 + 1) % (["a", "b", "c"] : List String).length)) := by
  have hc := claimC7 (AppState.mk ["a", "b", "c"] [] 2 initState true true)
  exact ⟨hc.1, (hc.2.2.2.1 ⟨rfl, rfl⟩).1, (hc.2.2.2.1 ⟨rfl, rfl⟩).2,
    (hc.2.2.2.2.2 (by decide)).1, (hc.2.2.2.2.2 (by decide)).2⟩

/-- C8: every load of the current item goes through a guard that keeps the
cursor in `[0, len-1]` (or skips the load on an empty playlist):
`play_pause` clamps the cursor, `play_next` and the monitor iteration
advance it modulo the length, so none of them can produce the
`IndexError` outcome of `playCurrentSong`. -/
theorem claimC8 (st : AppState) :
    (∀ (isP : Bool) (ps : VlcState),
      (play_pause isP ps st).2 ≠ Option.none) ∧
    (play_next st).2 ≠ Option.none ∧
    (∀ (now : ℚ) (pick : ℕ) (ps : VlcState)
      (r : AppState × Option String × Option (Option String)),
      monitorStep now pick ps st = some r → r.2.2 ≠ Option.none) := by
  refine ⟨?_, ?_, ?_⟩
  · intro isP ps
    unfold play_pause
    split
    · simp
    · split
      · simp
      · split
        · rename_i hne _
          apply playCurrentSong_ne_none
          right
          simp only []
          have hlen : 0 < st.playlist.length := List.length_pos.mpr hne
          omega
        · simp
  · show playCurrentSong (advanceIndex (stopActiveJingle st)) ≠ Option.none
    exact playCurrentSong_advance_ne_none (stopActiveJingle st)
  · intro now pick ps r hr
    unfold monitorStep at hr
    split at hr
    · simp only [] at hr
      split at hr
      · exact absurd hr (by simp)
      · injection hr with hr'
        rw [← hr']
        exact playCurrentSong_advance_ne_none _
    · injection hr with hr'
      rw [← hr']
      simp

/-- Witness for C8: a two-song playlist with an out-of-range cursor 5 is
clamped by `play_pause`; `play_next` and a monitor iteration on `Ended`
also produce a safe load. -/
theorem claimC8_witness :
    (play_pause false VlcState.Ended
      (AppState.mk ["a", "b"] [] 5 initState false false)).2 ≠
      Option.none ∧
    (play_next (AppState.mk ["a", "b"] [] 0 initState false false)).2 ≠
      Option.none ∧
    ((AppState.mk ["a", "b"] [] 1 initState false false, Option.none,
      some (some "b")) :
      AppState × Option String × Option (Option String)).2.2 ≠
      Option.none :=
  ⟨(claimC8 (AppState.mk ["a", "b"] [] 5 initState false false)).1 false
      VlcState.Ended,
   (claimC8 (AppState.mk ["a", "b"] [] 0 initState false false)).2.1,
   (claimC8 (AppState.mk ["a", "b"] [] 0 initState false false)).2.2 0 0
      VlcState.Ended _ (by decide)⟩
